import Mathlib

/-!
Verification of the gamepad-to-vehicle control pipeline (main.py / config.py):
deadzone shaping, gear state machine, exponential smoothing, rolling-window
telemetry, the change-detection command dispatcher, and the 13-byte drive
payload. Python floats are embedded as exact rationals; Python `int()` is
truncation toward zero.
-/

namespace XboxHub

/-- Python `int()` applied to a rational: truncation toward zero. -/
def pyInt (q : ℚ) : ℤ := if 0 ≤ q then ⌊q⌋ else ⌈q⌉

theorem pyInt_bound (q : ℚ) (n : ℤ) (hn : 0 ≤ n)
    (h1 : -(n : ℚ) ≤ q) (h2 : q ≤ (n : ℚ)) : -n ≤ pyInt q ∧ pyInt q ≤ n := by
  unfold pyInt
  split
  · constructor
    · have : (0 : ℤ) ≤ ⌊q⌋ := by
        rw [Int.le_floor]
        simpa using ‹0 ≤ q›
      omega
    · calc ⌊q⌋ ≤ ⌊(n : ℚ)⌋ := Int.floor_le_floor h2
        _ = n := Int.floor_intCast n
  · constructor
    · calc -n = ⌈(-n : ℚ)⌉ := by rw [← Int.cast_neg, Int.ceil_intCast]
        _ ≤ ⌈q⌉ := Int.ceil_le_ceil (by exact_mod_cast h1)
    · have : ⌈q⌉ ≤ 0 := by
        rw [Int.ceil_le]
        push_cast
        linarith [not_le.mp ‹¬ 0 ≤ q›]
      omega

/-- Drive mode (config.py `Mode`): comfort or sport. -/
inductive Mode : Type
  | COMFORT
  | SPORT
deriving DecidableEq

/-- config.py `SMOOTH_ALPHA_ACCEL`: per-mode smoothing factor for acceleration. -/
def SMOOTH_ALPHA_ACCEL : Mode → ℚ
  | .COMFORT => 1/100
  | .SPORT => 15/100

/-- config.py `SMOOTH_ALPHA_BRAKE`: per-mode smoothing factor for braking. -/
def SMOOTH_ALPHA_BRAKE : Mode → ℚ
  | .COMFORT => 15/100
  | .SPORT => 35/100

/-- Gear enumeration (config.py / main.py `Gear`). -/
inductive Gear : Type
  | FIRST
  | SECOND
  | THIRD
deriving DecidableEq

/-- main.py / config.py `GEAR_THROTTLE_SCALE`: forward scale per gear. -/
def GEAR_THROTTLE_SCALE : Gear → ℚ
  | .FIRST => 1/4
  | .SECOND => 1/2
  | .THIRD => 1

/-- config.py `REVERSE_SCALE_PER_GEAR`: reverse scale per gear (negative). -/
def REVERSE_SCALE_PER_GEAR : Gear → ℚ
  | .FIRST => -(3/20)
  | .SECOND => -(1/4)
  | .THIRD => -(1/2)

/-- config.py `DEADZONE_TRIGGER` (the spec's `triggerDeadzone`). -/
def DEADZONE_TRIGGER : ℚ := 5

/-- main.py `TechnicMoveHub.drive`: the 13-byte payload handed to the transport.
Python `x & 0xFF` on an int is the nonnegative residue `x % 256`. -/
def drivePayload (speed angle lights : ℤ) : List ℤ :=
  [0x0d, 0x00, 0x81, 0x36, 0x11,
   0x51, 0x00, 0x03, 0x00,
   speed % 256, angle % 256, lights % 256, 0x00]

/-- Claim C10: every emitted drive command is exactly 13 bytes with fixed header
`0d 00 81 36 11 51 00 03 00`, then `speed & 0xFF`, `angle & 0xFF`,
`lights & 0xFF`, trailer `0x00`, and every entry is a byte value, for all
integer inputs. -/
theorem c10_drive_payload_layout (speed angle lights : ℤ) :
    (drivePayload speed angle lights).length = 13 ∧
    drivePayload speed angle lights =
      [0x0d, 0x00, 0x81, 0x36, 0x11, 0x51, 0x00, 0x03, 0x00,
       speed % 256, angle % 256, lights % 256, 0x00] ∧
    ∀ b ∈ drivePayload speed angle lights, 0 ≤ b ∧ b < 256 := by
  refine ⟨rfl, rfl, ?_⟩
  intro b hb
  simp only [drivePayload, List.mem_cons, List.not_mem_nil, or_false] at hb
  rcases hb with h|h|h|h|h|h|h|h|h|h|h|h|h <;> subst h <;> omega

/-- Closed instance of `c10_drive_payload_layout` at a concrete command. -/
theorem c10_witness : (0x0d : ℤ) ∈ drivePayload (-7) 3 5 →
    0 ≤ (0x0d : ℤ) ∧ (0x0d : ℤ) < 256 :=
  (c10_drive_payload_layout (-7) 3 5).2.2 0x0d

/-- main.py gear-shift logic (controller_loop): on an LB rising edge the index
moves down clamped at 0, then on an RB rising edge it moves up clamped at 2.
The previous-tick button states come from the `raw` snapshot. -/
def gearStep (prevLB prevRB lb rb : Bool) (i : ℤ) : ℤ :=
  let i1 := if lb = true ∧ prevLB = false then max 0 (i - 1) else i
  if rb = true ∧ prevRB = false then min 2 (i1 + 1) else i1

/-- Claim C7: the gear index never leaves [0, 2]; a down-shift edge at FIRST and
an up-shift edge at THIRD are no-ops; the gear changes only on a rising edge,
and moves at most one step per tick per direction. -/
theorem c7_gear_clamped_edge_triggered (prevLB prevRB lb rb : Bool) (i : ℤ)
    (h0 : 0 ≤ i) (h2 : i ≤ 2) :
    (0 ≤ gearStep prevLB prevRB lb rb i ∧ gearStep prevLB prevRB lb rb i ≤ 2) ∧
    (i = 0 → ¬(rb = true ∧ prevRB = false) → gearStep prevLB prevRB lb rb i = 0) ∧
    (i = 2 → ¬(lb = true ∧ prevLB = false) → gearStep prevLB prevRB lb rb i = 2) ∧
    (¬(lb = true ∧ prevLB = false) → ¬(rb = true ∧ prevRB = false) →
      gearStep prevLB prevRB lb rb i = i) ∧
    (i - 1 ≤ gearStep prevLB prevRB lb rb i ∧ gearStep prevLB prevRB lb rb i ≤ i + 1) := by
  by_cases hl : lb = true ∧ prevLB = false <;>
    by_cases hr : rb = true ∧ prevRB = false <;>
      simp [gearStep, hl, hr] <;> omega

/-- Closed instance of `c7_gear_clamped_edge_triggered`: a down-shift rising
edge at FIRST leaves the index at 0. -/
theorem c7_witness : gearStep false false true false 0 = 0 :=
  ((c7_gear_clamped_edge_triggered false false true false 0 (by norm_num)
    (by norm_num)).2.1 rfl (by simp))

/-- A drive command handed to the transport: (speed, angle, lights code). -/
structure Cmd where
  speed : ℤ
  angle : ℤ
  lights : ℕ
deriving DecidableEq

/-- Persistent dispatcher state of main.py's controller_loop:
`throttle_old`, `steering_old`, `lights_old_code`, `was_brake`. -/
structure DispatchState where
  throttleOld : ℤ
  steeringOld : ℤ
  lightsOld : ℕ
  wasBrake : Bool
deriving DecidableEq

/-- main.py drive logic (controller_loop, after smoothing): three independent
`if` statements. The rising-edge branch emits a forced speed-0 command and sets
`throttle_old` to 0 before the change-detection comparison; the falling-edge
branch and the change-detection branch each emit the smoothed power. Afterwards
all four state fields are overwritten unconditionally. Returns the emitted
commands in order together with the new state. -/
def dispatchStep (st : DispatchState) (brakeActive : Bool) (powerToSend steering : ℤ)
    (lightsCode : ℕ) : List Cmd × DispatchState :=
  let risingEmit : List Cmd :=
    if brakeActive = true ∧ st.wasBrake = false then [⟨0, steering, lightsCode⟩] else []
  let throttleOld1 : ℤ :=
    if brakeActive = true ∧ st.wasBrake = false then 0 else st.throttleOld
  let fallingEmit : List Cmd :=
    if brakeActive = false ∧ st.wasBrake = true then [⟨powerToSend, steering, lightsCode⟩]
    else []
  let shouldDrive : Prop :=
    steering ≠ st.steeringOld ∨ powerToSend ≠ throttleOld1 ∨ lightsCode ≠ st.lightsOld
  let changeEmit : List Cmd :=
    if shouldDrive then [⟨powerToSend, steering, lightsCode⟩] else []
  (risingEmit ++ fallingEmit ++ changeEmit,
   ⟨powerToSend, steering, lightsCode, brakeActive⟩)

/-- Claim C1 counterexample: with last state (0, 0, lights 0x00, not braking)
and a brake rising edge while the smoothed power is already 0 (steering 0,
lights code 0x01 because braking changed it), the tick emits the speed-0
command twice — once from the rising-edge branch and once from change
detection — so "exactly once" fails. -/
theorem c1_counterexample :
    ¬ ((dispatchStep ⟨0, 0, 0x00, false⟩ true 0 0 0x01).1.countP
        (fun c => c.speed == 0) = 1) := by
  decide

/-- Claim C1 (amended): on the brake rising-edge tick the first emission is the
forced speed-0 command; at least one and at most two speed-0 commands are
emitted that tick, and exactly one when the smoothed power is nonzero (the
change-detection branch can duplicate speed 0 only when the smoothed power is
0). While brake stays held on subsequent ticks the rising-edge branch does not
fire: every emission is the change-detection command carrying the smoothed
power, at most one per tick. -/
theorem c1_brake_edge_amended (st : DispatchState) (power steering : ℤ) (lights : ℕ) :
    (st.wasBrake = false →
      (dispatchStep st true power steering lights).1.head? = some ⟨0, steering, lights⟩ ∧
      1 ≤ (dispatchStep st true power steering lights).1.countP (fun c => c.speed == 0) ∧
      (dispatchStep st true power steering lights).1.countP (fun c => c.speed == 0) ≤ 2 ∧
      (power ≠ 0 →
        (dispatchStep st true power steering lights).1.countP (fun c => c.speed == 0) = 1)) ∧
    (st.wasBrake = true →
      (∀ c ∈ (dispatchStep st true power steering lights).1,
        c = ⟨power, steering, lights⟩) ∧
      (dispatchStep st true power steering lights).1.length ≤ 1) := by
  constructor
  · intro hw
    by_cases hsd : steering ≠ st.steeringOld ∨ power ≠ (0 : ℤ) ∨ lights ≠ st.lightsOld
    · refine ⟨?_, ?_, ?_, ?_⟩
      · simp [dispatchStep, hw, hsd]
      · simp [dispatchStep, hw, hsd, List.countP_cons]
      · simp only [dispatchStep, hw, hsd, if_pos, List.countP_cons]
        simp [List.countP_cons]
        split <;> exact le_trans (List.countP_le_length _) (by simp)
      · intro hp
        simp [dispatchStep, hw, hsd, List.countP_cons, hp]
    · refine ⟨?_, ?_, ?_, ?_⟩
      · simp [dispatchStep, hw, hsd]
      · simp [dispatchStep, hw, hsd, List.countP_cons]
      · simp [dispatchStep, hw, hsd, List.countP_cons]
      · intro hp
        simp [dispatchStep, hw, hsd, List.countP_cons]
  · intro hw
    by_cases hsd : steering ≠ st.steeringOld ∨ power ≠ st.throttleOld ∨ lights ≠ st.lightsOld <;>
      simp [dispatchStep, hw, hsd]

/-- Closed instance of `c1_brake_edge_amended`: brake rising edge with nonzero
smoothed power 7 — the first emission is the forced speed-0 command. -/
theorem c1_amended_witness :
    (dispatchStep ⟨0, 0, 0, false⟩ true 7 3 1).1.head? = some ⟨0, 3, 1⟩ :=
  ((c1_brake_edge_amended ⟨0, 0, 0, false⟩ 7 3 1).1 rfl).1

/-- Modelled from the spec: the Smoother variant that selects a per-direction
alpha pair (config.py `SMOOTH_ALPHA_ACCEL` / `SMOOTH_ALPHA_BRAKE`) by drive
mode — the loop using these config.py pairs is not under src/ (main.py smooths
with a single per-mode alpha and no direction test). Rule: if
`adjustedSpeed > S` use the accel alpha, else the brake alpha; then
`S ← S + (adjustedSpeed − S) × alpha`. -/
def smootherStep (m : Mode) (S adjustedSpeed : ℚ) : ℚ :=
  let alpha := if S < adjustedSpeed then SMOOTH_ALPHA_ACCEL m else SMOOTH_ALPHA_BRAKE m
  S + (adjustedSpeed - S) * alpha

/-- Claim C2: the smoother uses the acceleration alpha exactly when the target
exceeds the accumulator and the brake alpha otherwise (a tie takes the
brake-alpha branch and leaves S unchanged), with the alpha pair given by the
current drive mode as declared in config.py, and updates
`S ← S + (target − S) × alpha`. -/
theorem c2_smoother_alpha_selection (m : Mode) (S t : ℚ) :
    (S < t → smootherStep m S t = S + (t - S) * SMOOTH_ALPHA_ACCEL m) ∧
    (t ≤ S → smootherStep m S t = S + (t - S) * SMOOTH_ALPHA_BRAKE m) ∧
    smootherStep m S S = S ∧
    SMOOTH_ALPHA_ACCEL Mode.COMFORT = 1/100 ∧
    SMOOTH_ALPHA_BRAKE Mode.COMFORT = 15/100 ∧
    SMOOTH_ALPHA_ACCEL Mode.SPORT = 15/100 ∧
    SMOOTH_ALPHA_BRAKE Mode.SPORT = 35/100 := by
  refine ⟨?_, ?_, ?_, rfl, rfl, rfl, rfl⟩
  · intro h
    simp [smootherStep, h]
  · intro h
    simp [smootherStep, not_lt.mpr h]
  · simp [smootherStep]

/-- Closed instance of `c2_smoother_alpha_selection`: accelerating from 0
toward 10 in COMFORT mode applies the accel alpha. -/
theorem c2_witness :
    smootherStep Mode.COMFORT 0 10 = 0 + (10 - 0) * SMOOTH_ALPHA_ACCEL Mode.COMFORT :=
  (c2_smoother_alpha_selection Mode.COMFORT 0 10).1 (by norm_num)

/-- The smoother accumulator driven from 0 by the constant target 15 in
COMFORT mode (spec convergence scenario). -/
def specS : ℕ → ℚ
  | 0 => 0
  | n + 1 => smootherStep Mode.COMFORT (specS n) 15

theorem specS_lt_fifteen (n : ℕ) : specS n < 15 := by
  induction n with
  | zero => norm_num [specS]
  | succ n ih =>
    have h : smootherStep Mode.COMFORT (specS n) 15 =
        specS n + (15 - specS n) * (1/100) := by
      simp [smootherStep, ih, SMOOTH_ALPHA_ACCEL]
    rw [specS, h]
    linarith

theorem specS_succ (n : ℕ) : specS (n + 1) = specS n + (15 - specS n) * (1/100) := by
  rw [specS]
  simp [smootherStep, specS_lt_fifteen n, SMOOTH_ALPHA_ACCEL]

/-- Claim C3: from S = 0 with constant target 15 in COMFORT mode (accel alpha
0.01), one tick gives S = 0.15 which truncates to integer output 0; S is
monotonically non-decreasing, never exceeds 15, and the gap to 15 shrinks
geometrically by factor 0.99 each tick. -/
theorem c3_smoother_convergence :
    specS 1 = 3/20 ∧ pyInt (specS 1) = 0 ∧
    (∀ n, specS n ≤ specS (n + 1)) ∧
    (∀ n, specS n ≤ 15) ∧
    (∀ n, 15 - specS (n + 1) = 99/100 * (15 - specS n)) := by
  have h1 : specS 1 = 3/20 := by
    rw [specS_succ]
    norm_num [specS]
  refine ⟨h1, ?_, ?_, ?_, ?_⟩
  · rw [h1]
    norm_num [pyInt, Int.floor_eq_zero_iff, Set.mem_Ico]
  · intro n
    rw [specS_succ]
    have := specS_lt_fifteen n
    linarith
  · intro n
    exact le_of_lt (specS_lt_fifteen n)
  · intro n
    rw [specS_succ]
    ring

/-- Modelled from the spec: ControlResolver rules 1–2 (raw throttle and the
full-brake flag). The spec's canonical variant — the one using config.py's
`DEADZONE_TRIGGER` and `REVERSE_SCALE_PER_GEAR` — is not under src/; main.py
implements a different variant (`right_trigger > 0` test,
`raw_throttle = -int(left_trigger * 0.4)`, positive scale only). -/
def specRawThrottle (forward brake : ℚ) (brakeButton : Bool) : Bool × ℚ :=
  if DEADZONE_TRIGGER < forward then
    if 95 < brake ∨ brakeButton = true then (true, 0)
    else (false, max 0 (forward - brake))
  else
    if brakeButton = true then (true, 0) else (false, -brake)

/-- Modelled from the spec: ControlResolver rule 3 — full brake forces 0;
nonnegative raw throttle scales by the forward gear scale, negative raw
throttle by the (negative) reverse gear scale. -/
def specScaled (g : Gear) (fullBrake : Bool) (rawThrottle : ℚ) : ℚ :=
  if fullBrake = true then 0
  else if 0 ≤ rawThrottle then rawThrottle * GEAR_THROTTLE_SCALE g
  else rawThrottle * REVERSE_SCALE_PER_GEAR g

/-- Modelled from the spec: the composed ControlResolver
`(fullBrake, adjustedSpeed)` before inner-deadzone enforcement. -/
def specResolve (forward brake : ℚ) (brakeButton : Bool) (g : Gear) : Bool × ℚ :=
  let fb := specRawThrottle forward brake brakeButton
  (fb.1, specScaled g fb.1 fb.2)

/-- Claim C4: with no forward trigger input and the brake button not held, the
raw throttle is −brake, and for positive brake this negative raw throttle is
scaled by the gear's reverse scale factor, which is negative for every gear. -/
theorem c4_reverse_throttle (forward brake : ℚ) (g : Gear)
    (hf : forward ≤ DEADZONE_TRIGGER) :
    specRawThrottle forward brake false = (false, -brake) ∧
    (0 < brake →
      specResolve forward brake false g = (false, -brake * REVERSE_SCALE_PER_GEAR g)) ∧
    REVERSE_SCALE_PER_GEAR g < 0 := by
  have hraw : specRawThrottle forward brake false = (false, -brake) := by
    simp [specRawThrottle, not_lt.mpr hf]
  refine ⟨hraw, ?_, ?_⟩
  · intro hb
    simp [specResolve, hraw, specScaled, not_le.mpr (by linarith : -brake < 0)]
  · cases g <;> norm_num [REVERSE_SCALE_PER_GEAR]

/-- Closed instance of `c4_reverse_throttle`: forward 0, brake 50, FIRST gear
gives raw throttle −50 and adjusted speed −50 × (−0.15) = 7.5. -/
theorem c4_witness :
    specResolve 0 50 false Gear.FIRST = (false, -50 * REVERSE_SCALE_PER_GEAR Gear.FIRST) :=
  ((c4_reverse_throttle 0 50 Gear.FIRST (by norm_num [DEADZONE_TRIGGER])).2.1 (by norm_num))

/-- Modelled from the spec: inner-deadzone enforcement (ControlResolver rule
4) — a nonzero adjusted speed of magnitude below 10 is snapped to ±10 with its
sign preserved; 0 stays 0. Not present in src/main.py. -/
def specSnapInner (x : ℚ) : ℚ :=
  if 0 < |x| ∧ |x| < 10 then (if 0 < x then 10 else -10) else x

/-- Claim C5: after gear scaling, an adjusted speed with 0 < |x| < 10 is
snapped to ±10 preserving its sign, and an adjusted speed of exactly 0 is left
at 0. -/
theorem c5_inner_deadzone (x : ℚ) :
    (0 < |x| → |x| < 10 →
      |specSnapInner x| = 10 ∧ (0 < x ↔ 0 < specSnapInner x) ∧
      (0 < x → specSnapInner x = 10) ∧ (x < 0 → specSnapInner x = -10)) ∧
    (x = 0 → specSnapInner x = 0) := by
  constructor
  · intro h0 h10
    have hx : x ≠ 0 := by
      intro hx
      rw [hx] at h0
      simp at h0
    rcases lt_or_gt_of_ne hx with hneg | hpos
    · rw [specSnapInner, if_pos ⟨h0, h10⟩, if_neg (by linarith)]
      exact ⟨by norm_num, ⟨fun h => absurd h (by linarith), fun h => absurd h (by norm_num)⟩,
        fun h => absurd h (by linarith), fun _ => rfl⟩
    · rw [specSnapInner, if_pos ⟨h0, h10⟩, if_pos hpos]
      exact ⟨by norm_num, ⟨fun _ => by norm_num, fun _ => hpos⟩,
        fun _ => rfl, fun h => absurd h (by linarith)⟩
  · intro hx
    simp [specSnapInner, hx]

/-- Closed instance of `c5_inner_deadzone`: 3 snaps to 10. -/
theorem c5_witness : specSnapInner 3 = 10 :=
  (((c5_inner_deadzone 3).1 (by norm_num) (by norm_num)).2.2.1 (by norm_num))

/-- Modelled from the spec: the steering calibration limit — 80% of maximum
stick deflection counts as full lock. -/
def STEERING_LIMIT : ℚ := 80

/-- Modelled from the spec: SteeringMapper — `round(raw / limit × 100)` clamped
to [−100, 100]. src/main.py passes the stick value through unmapped
(`steering = left_x`). -/
def specSteering (raw : ℤ) : ℤ :=
  max (-100) (min 100 (round ((raw : ℚ) / STEERING_LIMIT * 100)))

/-- Claim C6: for every normalized stick value in −100..100 the steering output
is round(raw / limit × 100) clamped to [−100, 100] with limit 80, it stays in
[−100, 100], and deflections at or beyond the limit saturate at ±100. -/
theorem c6_steering_saturation (raw : ℤ) (h1 : -100 ≤ raw) (h2 : raw ≤ 100) :
    specSteering raw = max (-100) (min 100 (round ((raw : ℚ) / 80 * 100))) ∧
    -100 ≤ specSteering raw ∧ specSteering raw ≤ 100 ∧
    (80 ≤ raw → specSteering raw = 100) ∧
    (raw ≤ -80 → specSteering raw = -100) := by
  refine ⟨rfl, ?_, ?_, ?_, ?_⟩
  · exact le_max_left _ _
  · exact max_le (by norm_num) (min_le_left _ _)
  · intro h80
    have hq : (100 : ℚ) ≤ (raw : ℚ) / 80 * 100 := by
      have : (80 : ℚ) ≤ (raw : ℚ) := by exact_mod_cast h80
      nlinarith
    have hr : (100 : ℤ) ≤ round ((raw : ℚ) / 80 * 100) := by
      rw [round_eq]
      rw [Int.le_floor]
      push_cast
      linarith
    unfold specSteering STEERING_LIMIT
    omega
  · intro h80
    have hq : (raw : ℚ) / 80 * 100 ≤ -100 := by
      have : (raw : ℚ) ≤ -80 := by exact_mod_cast h80
      nlinarith
    have hr : round ((raw : ℚ) / 80 * 100) ≤ -100 := by
      rw [round_eq]
      have : ⌊(raw : ℚ) / 80 * 100 + 1/2⌋ ≤ ⌊(-100 + 1/2 : ℚ)⌋ :=
        Int.floor_le_floor (by linarith)
      have h995 : ⌊(-100 + 1/2 : ℚ)⌋ = -100 := by
        rw [Int.floor_eq_iff]
        norm_num
      omega
    unfold specSteering STEERING_LIMIT
    omega

/-- Closed instance of `c6_steering_saturation`: full deflection 100 (beyond
the limit 80) saturates at 100. -/
theorem c6_witness : specSteering 100 = 100 :=
  ((c6_steering_saturation 100 (by norm_num) (by norm_num)).2.2.2.1 (by norm_num))

/-- main.py per-mode single smoothing alpha of controller_loop
(COMFORT_ALPHA = 0.08, SPORT_ALPHA = 0.25). -/
def mainAlpha : Mode → ℚ
  | .COMFORT => 2/25
  | .SPORT => 1/4

/-- main.py throttle/brake logic (controller_loop): returns
`(full_brake, raw_throttle)` from the two trigger values and the A button. -/
def mainRawThrottle (leftTrigger rightTrigger : ℤ) (buttonA : Bool) : Bool × ℤ :=
  if 0 < rightTrigger then
    if 80 < leftTrigger ∨ buttonA = true then (true, 0)
    else (false, rightTrigger - leftTrigger)
  else
    if buttonA = true then (true, 0)
    else (false, -pyInt ((leftTrigger : ℚ) * (2/5)))

/-- main.py gear scaling: full brake forces 0, otherwise
`int(raw_throttle * scale)` with the forward gear scale. -/
def mainAdjusted (g : Gear) (fullBrake : Bool) (rawThrottle : ℤ) : ℤ :=
  if fullBrake = true then 0 else pyInt ((rawThrottle : ℚ) * GEAR_THROTTLE_SCALE g)

/-- main.py exponential smoothing step:
`smoothed = alpha * adjusted + (1 - alpha) * smoothed`. -/
def mainSmooth (alpha S : ℚ) (adjusted : ℤ) : ℚ := alpha * (adjusted : ℚ) + (1 - alpha) * S

/-- One tick's worth of control inputs to the main.py pipeline. -/
structure Tick where
  leftTrigger : ℤ
  rightTrigger : ℤ
  buttonA : Bool
  mode : Mode
  gear : Gear

/-- The adjusted speed main.py computes for one tick. -/
def tickAdjusted (t : Tick) : ℤ :=
  let fr := mainRawThrottle t.leftTrigger t.rightTrigger t.buttonA
  mainAdjusted t.gear fr.1 fr.2

/-- The smoothed-power accumulator after running main.py's pipeline over a
sequence of ticks, starting from `smoothed_power = 0.0`. -/
def runSmoothed (l : List Tick) : ℚ :=
  l.foldl (fun S t => mainSmooth (mainAlpha t.mode) S (tickAdjusted t)) 0

/-- Trigger values are post-deadzone values in [0, 100]. -/
def validTick (t : Tick) : Prop :=
  0 ≤ t.leftTrigger ∧ t.leftTrigger ≤ 100 ∧ 0 ≤ t.rightTrigger ∧ t.rightTrigger ≤ 100

theorem tickAdjusted_bound (t : Tick) (hv : validTick t) :
    -100 ≤ tickAdjusted t ∧ tickAdjusted t ≤ 100 := by
  obtain ⟨hl0, hl1, hr0, hr1⟩ := hv
  have hraw : -100 ≤ (mainRawThrottle t.leftTrigger t.rightTrigger t.buttonA).2 ∧
      (mainRawThrottle t.leftTrigger t.rightTrigger t.buttonA).2 ≤ 100 := by
    unfold mainRawThrottle
    split
    · split
      · norm_num
      · rename_i h
        push_neg at h
        simp only
        omega
    · split
      · norm_num
      · have hlq0 : (0 : ℚ) ≤ (t.leftTrigger : ℚ) := by exact_mod_cast hl0
        have hlq1 : (t.leftTrigger : ℚ) ≤ 100 := by exact_mod_cast hl1
        have hb : -(40 : ℤ) ≤ -pyInt ((t.leftTrigger : ℚ) * (2/5)) ∧
            -pyInt ((t.leftTrigger : ℚ) * (2/5)) ≤ 40 := by
          have := pyInt_bound ((t.leftTrigger : ℚ) * (2/5)) 40 (by norm_num)
            (by linarith) (by linarith)
          omega
        simp only
        omega
  have htick : tickAdjusted t =
      mainAdjusted t.gear (mainRawThrottle t.leftTrigger t.rightTrigger t.buttonA).1
        (mainRawThrottle t.leftTrigger t.rightTrigger t.buttonA).2 := rfl
  rw [htick]
  unfold mainAdjusted
  split
  · norm_num
  · set r := (mainRawThrottle t.leftTrigger t.rightTrigger t.buttonA).2 with hr
    have hs0 : (0 : ℚ) < GEAR_THROTTLE_SCALE t.gear := by
      cases t.gear <;> norm_num [GEAR_THROTTLE_SCALE]
    have hs1 : GEAR_THROTTLE_SCALE t.gear ≤ 1 := by
      cases t.gear <;> norm_num [GEAR_THROTTLE_SCALE]
    have hcast : (-100 : ℚ) ≤ (r : ℚ) ∧ (r : ℚ) ≤ 100 :=
      ⟨by exact_mod_cast hraw.1, by exact_mod_cast hraw.2⟩
    exact pyInt_bound _ 100 (by norm_num)
      (by push_cast; nlinarith [hcast.1, hcast.2])
      (by push_cast; nlinarith [hcast.1, hcast.2])

theorem mainSmooth_bound (alpha S : ℚ) (a : ℤ) (h0 : 0 < alpha) (h1 : alpha ≤ 1)
    (hS0 : -100 ≤ S) (hS1 : S ≤ 100) (ha0 : -100 ≤ a) (ha1 : a ≤ 100) :
    -100 ≤ mainSmooth alpha S a ∧ mainSmooth alpha S a ≤ 100 := by
  have ha0q : (-100 : ℚ) ≤ (a : ℚ) := by exact_mod_cast ha0
  have ha1q : (a : ℚ) ≤ 100 := by exact_mod_cast ha1
  unfold mainSmooth
  constructor <;> nlinarith

theorem runSmoothed_invariant (l : List Tick) (S : ℚ) (hS0 : -100 ≤ S) (hS1 : S ≤ 100)
    (hv : ∀ t ∈ l, validTick t) :
    -100 ≤ l.foldl (fun S t => mainSmooth (mainAlpha t.mode) S (tickAdjusted t)) S ∧
    l.foldl (fun S t => mainSmooth (mainAlpha t.mode) S (tickAdjusted t)) S ≤ 100 := by
  induction l generalizing S with
  | nil => exact ⟨hS0, hS1⟩
  | cons t l ih =>
    have hvt := hv t (List.mem_cons_self t l)
    have hadj := tickAdjusted_bound t hvt
    have halpha : 0 < mainAlpha t.mode ∧ mainAlpha t.mode ≤ 1 := by
      cases t.mode <;> norm_num [mainAlpha]
    have hstep := mainSmooth_bound (mainAlpha t.mode) S (tickAdjusted t)
      halpha.1 halpha.2 hS0 hS1 hadj.1 hadj.2
    exact ih _ hstep.1 hstep.2 (fun x hx => hv x (List.mem_cons_of_mem t hx))

/-- Claim C8: for every tick sequence whose post-deadzone trigger values lie in
[0, 100], the smoothed power accumulator (started at 0) and the integer power
value sent to the vehicle stay within [−100, 100]. -/
theorem c8_power_bounded (l : List Tick) (hv : ∀ t ∈ l, validTick t) :
    -100 ≤ runSmoothed l ∧ runSmoothed l ≤ 100 ∧
    -100 ≤ pyInt (runSmoothed l) ∧ pyInt (runSmoothed l) ≤ 100 := by
  have h := runSmoothed_invariant l 0 (by norm_num) (by norm_num) hv
  have hp := pyInt_bound (runSmoothed l) 100 (by norm_num)
    (by push_cast; exact h.1) (by push_cast; exact h.2)
  exact ⟨h.1, h.2, hp.1, hp.2⟩

/-- Closed instance of `c8_power_bounded`: one full-throttle tick in SPORT mode
and THIRD gear keeps the smoothed power within bounds. -/
theorem c8_witness :
    -100 ≤ runSmoothed [⟨0, 100, false, Mode.SPORT, Gear.THIRD⟩] ∧
    runSmoothed [⟨0, 100, false, Mode.SPORT, Gear.THIRD⟩] ≤ 100 ∧
    -100 ≤ pyInt (runSmoothed [⟨0, 100, false, Mode.SPORT, Gear.THIRD⟩]) ∧
    pyInt (runSmoothed [⟨0, 100, false, Mode.SPORT, Gear.THIRD⟩]) ≤ 100 :=
  c8_power_bounded [⟨0, 100, false, Mode.SPORT, Gear.THIRD⟩]
    (by intro t ht; simp at ht; subst ht; exact ⟨by norm_num, by norm_num, by norm_num, by norm_num⟩)

/-- main.py `WINDOW_SECONDS`: the rolling-average window length. -/
def WINDOW_SECONDS : ℚ := 60

/-- main.py eviction loop: `while window and now - window[0][0] > WINDOW_SECONDS:
window.popleft()` — drop entries from the front while they are too old. -/
def rollEvict (now W : ℚ) (w : List (ℚ × ℚ)) : List (ℚ × ℚ) :=
  w.dropWhile (fun e => decide (W < now - e.1))

/-- main.py per-tick rolling-window update: append `(now, smoothed_power)`,
then evict stale entries from the front. -/
def rollStep (now W s : ℚ) (w : List (ℚ × ℚ)) : List (ℚ × ℚ) :=
  rollEvict now W (w ++ [(now, s)])

/-- main.py rolling average:
`sum(p for _, p in window) / len(window) if window else 0.0`. -/
def rollAvg (w : List (ℚ × ℚ)) : ℚ :=
  if w = [] then 0 else (w.map Prod.snd).sum / (w.length : ℚ)

theorem rollEvict_fresh (now W : ℚ) (w : List (ℚ × ℚ))
    (hsorted : w.Pairwise (fun a b => a.1 ≤ b.1)) :
    ∀ e ∈ rollEvict now W w, now - e.1 ≤ W := by
  induction w with
  | nil => intro e he; simp [rollEvict] at he
  | cons a t ih =>
    rw [List.pairwise_cons] at hsorted
    by_cases hp : W < now - a.1
    · intro e he
      rw [rollEvict, List.dropWhile_cons] at he
      simp only [decide_eq_true_eq, if_pos hp] at he
      exact ih hsorted.2 e he
    · intro e he
      rw [rollEvict, List.dropWhile_cons] at he
      simp only [decide_eq_true_eq, if_neg hp] at he
      rcases List.mem_cons.mp he with rfl | het
      · linarith [not_lt.mp hp]
      · have := hsorted.1 e het
        linarith [not_lt.mp hp]

theorem rollEvict_keeps_last (now W : ℚ) (w : List (ℚ × ℚ)) (e : ℚ × ℚ)
    (he : e ∈ w) (hfresh : ¬ W < now - e.1) :
    rollEvict now W w ≠ [] := by
  induction w with
  | nil => simp at he
  | cons a t ih =>
    rw [rollEvict, List.dropWhile_cons]
    by_cases hp : W < now - a.1
    · simp only [decide_eq_true_eq, if_pos hp]
      rcases List.mem_cons.mp he with rfl | het
      · exact absurd hp hfresh
      · exact ih het
    · simp only [decide_eq_true_eq, if_neg hp]
      simp

theorem list_mean_le (l : List ℚ) (b : ℚ) (hne : l ≠ []) (hb : ∀ x ∈ l, x ≤ b) :
    l.sum / (l.length : ℚ) ≤ b := by
  have hlen : 0 < (l.length : ℚ) := by
    have : 0 < l.length := List.length_pos.mpr hne
    exact_mod_cast this
  rw [div_le_iff hlen]
  have := List.sum_le_card_nsmul l b hb
  simpa [nsmul_eq_mul, mul_comm] using this

theorem le_list_mean (l : List ℚ) (a : ℚ) (hne : l ≠ []) (ha : ∀ x ∈ l, a ≤ x) :
    a ≤ l.sum / (l.length : ℚ) := by
  have hlen : 0 < (l.length : ℚ) := by
    have : 0 < l.length := List.length_pos.mpr hne
    exact_mod_cast this
  rw [le_div_iff hlen]
  have := List.card_nsmul_le_sum l a ha
  simpa [nsmul_eq_mul, mul_comm] using this

/-- Claim C9: per tick (timestamps monotone up to `now`, nonnegative window),
the updated rolling window retains no sample older than `windowSeconds`
relative to the latest timestamp, is nonempty, its average is the arithmetic
mean of the retained samples and lies within any enclosing [min, max] bounds of
them; the average of an empty sequence is defined as 0. -/
theorem c9_rolling_average (now W s : ℚ) (w : List (ℚ × ℚ))
    (hsorted : w.Pairwise (fun a b => a.1 ≤ b.1))
    (hle : ∀ e ∈ w, e.1 ≤ now) (hW : 0 ≤ W) :
    (∀ e ∈ rollStep now W s w, now - e.1 ≤ W) ∧
    rollStep now W s w ≠ [] ∧
    rollAvg (rollStep now W s w) =
      ((rollStep now W s w).map Prod.snd).sum / ((rollStep now W s w).length : ℚ) ∧
    (∀ b : ℚ, (∀ e ∈ rollStep now W s w, e.2 ≤ b) → rollAvg (rollStep now W s w) ≤ b) ∧
    (∀ a : ℚ, (∀ e ∈ rollStep now W s w, a ≤ e.2) → a ≤ rollAvg (rollStep now W s w)) ∧
    rollAvg [] = 0 := by
  have hsorted2 : (w ++ [(now, s)]).Pairwise (fun a b => a.1 ≤ b.1) := by
    rw [List.pairwise_append]
    refine ⟨hsorted, by simp, ?_⟩
    intro a ha b hb
    rw [List.mem_singleton] at hb
    subst hb
    exact hle a ha
  have hfresh : ∀ e ∈ rollStep now W s w, now - e.1 ≤ W :=
    rollEvict_fresh now W (w ++ [(now, s)]) hsorted2
  have hne : rollStep now W s w ≠ [] := by
    refine rollEvict_keeps_last now W (w ++ [(now, s)]) (now, s) (by simp) ?_
    simp only [sub_self]
    linarith
  have havg : rollAvg (rollStep now W s w) =
      ((rollStep now W s w).map Prod.snd).sum / ((rollStep now W s w).length : ℚ) := by
    rw [rollAvg, if_neg hne]
  refine ⟨hfresh, hne, havg, ?_, ?_, by simp [rollAvg]⟩
  · intro b hb
    rw [havg]
    have hlen : ((rollStep now W s w).map Prod.snd).length = (rollStep now W s w).length :=
      List.length_map _ _
    rw [← hlen]
    refine list_mean_le ((rollStep now W s w).map Prod.snd) b
      (by simpa [List.map_eq_nil] using hne) ?_
    intro x hx
    rw [List.mem_map] at hx
    obtain ⟨e, he, rfl⟩ := hx
    exact hb e he
  · intro a ha
    rw [havg]
    have hlen : ((rollStep now W s w).map Prod.snd).length = (rollStep now W s w).length :=
      List.length_map _ _
    rw [← hlen]
    refine le_list_mean ((rollStep now W s w).map Prod.snd) a
      (by simpa [List.map_eq_nil] using hne) ?_
    intro x hx
    rw [List.mem_map] at hx
    obtain ⟨e, he, rfl⟩ := hx
    exact ha e he

/-- Closed instance of `c9_rolling_average`: a stale sample at time 0 is
evicted when the tick at time 100 arrives with window 60, and the average of
the singleton window is its own value. -/
theorem c9_witness :
    (∀ e ∈ rollStep 100 WINDOW_SECONDS 7 [(0, 3)], 100 - e.1 ≤ WINDOW_SECONDS) ∧
    rollStep 100 WINDOW_SECONDS 7 [(0, 3)] ≠ [] :=
  have h := c9_rolling_average 100 WINDOW_SECONDS 7 [(0, 3)]
    (by simp) (by intro e he; simp at he; rw [he]; norm_num) (by norm_num [WINDOW_SECONDS])
  ⟨h.1, h.2.1⟩

end XboxHub
